import Mathlib

/-!
Verification of the MoNKey! m,n,k,p,q-game server core (`monkey.py`,
`main.py`, `util.py`) against its natural-language specification.

The Python source is shallowly embedded: Python ints become `ℤ`,
`xrange(a, b)` becomes `intRange a b`, datastore entities become
structures, exceptions become `Except`, and the two uses of
`random` (seat shuffling in `Game.add_player`, the randomized sort
comparator in `CpuPlayer.move`) become oracle parameters quantified
over in the theorems.
-/

set_option maxRecDepth 100000

namespace Monkey

/-- Embedding of Python `xrange(a, b)`: the integers `a, a+1, ..., b-1`
(empty when `b ≤ a`). -/
def intRange (a b : ℤ) : List ℤ :=
  (List.range (b - a).toNat).map (fun t => a + (t : ℤ))

/-- Embedding of the datastore model `RuleSet` (monkey.py).  Only the
fields the game logic reads are kept; `num_games` is the completed-games
counter mutated by `Game.move`. -/
structure RuleSet where
  name : String
  num_players : ℤ
  num_games : ℤ
  exact : Bool
  m : ℤ
  n : ℤ
  k : ℤ
  p : ℤ
  q : ℤ
  deriving Repr, DecidableEq

/-- The property validators and choices declared on the `RuleSet` model:
`num_players ∈ {2..9}` and `m, n, k, p, q > 0`. -/
def RuleSet.valid (rs : RuleSet) : Prop :=
  2 ≤ rs.num_players ∧ rs.num_players ≤ 9 ∧
  0 < rs.m ∧ 0 < rs.n ∧ 0 < rs.k ∧ 0 < rs.p ∧ 0 < rs.q

instance (rs : RuleSet) : Decidable rs.valid := by
  unfold RuleSet.valid; infer_instance

/-- `RuleSet.turns_left` (monkey.py): number of stones left before the
turn passes to another player.  Python `/` and `%` on these operands are
floor division and nonnegative remainder with a positive divisor, which
`Int.ediv`/`Int.emod` compute identically. -/
def RuleSet.turns_left (rs : RuleSet) (turn : ℤ) : ℤ :=
  if turn < rs.q then rs.q - turn
  else rs.p - (turn - rs.q) % rs.p

/-- `RuleSet.whose_turn` (monkey.py): 1-based seat index for a zero-based
turn counter. -/
def RuleSet.whose_turn (rs : RuleSet) (turn : ℤ) : ℤ :=
  if turn < rs.q then 1
  else ((turn - rs.q) / rs.p + 1) % rs.num_players + 1

/-- The loop body of `RuleSet.is_win` (monkey.py): one counter per axis
(`ca` horizontal, `cb` vertical, `cc` diagonal `\`, `cd` diagonal `/`),
iterating `i` over `xrange(-k+1, k)` with early return the moment a
counter equals `k`.  `ca += 1 if board[tx][y] == player else -ca` sets
the counter to `ca + 1` or `0`; an out-of-bounds probe leaves the
counter untouched. -/
def RuleSet.is_win_loop (rs : RuleSet) (board : ℤ → ℤ → ℤ) (player x y : ℤ) :
    ℕ → ℤ → ℤ × ℤ × ℤ × ℤ → Bool
  | 0, _, _ => false
  | fuel+1, i, (ca, cb, cc, cd) =>
    let tx := x + i
    let txi := x - i
    let ty := y + i
    let ca' := if 0 ≤ tx ∧ tx < rs.m then (if board tx y = player then ca + 1 else 0) else ca
    let cb' := if 0 ≤ ty ∧ ty < rs.n then (if board x ty = player then cb + 1 else 0) else cb
    let cc' := if 0 ≤ tx ∧ 0 ≤ ty ∧ tx < rs.m ∧ ty < rs.n then
                 (if board tx ty = player then cc + 1 else 0) else cc
    let cd' := if 0 ≤ txi ∧ 0 ≤ ty ∧ txi < rs.m ∧ ty < rs.n then
                 (if board txi ty = player then cd + 1 else 0) else cd
    if rs.exact = false ∧ (rs.k = ca' ∨ rs.k = cb' ∨ rs.k = cc' ∨ rs.k = cd') then true
    else rs.is_win_loop board player x y fuel (i + 1) (ca', cb', cc', cd')

/-- `RuleSet.is_win` (monkey.py).  Raises `NotImplementedError` (`none`)
when `exact` is set; otherwise scans the window `i ∈ [-k+1, k-1]` around
`(x, y)` on all four axes. -/
def RuleSet.is_win (rs : RuleSet) (board : ℤ → ℤ → ℤ) (player x y : ℤ) :
    Option Bool :=
  if rs.exact then none
  else some (rs.is_win_loop board player x y (2 * rs.k - 1).toNat (-rs.k + 1) (0, 0, 0, 0))

/-- One axis of the `is_win` loop in isolation: `B i` is the bounds
check guarding the probe at offset `i`, `M i` the cell comparison, `c`
the running counter.  A failed bounds check leaves the counter alone
(exactly as in the source, where the `+=` is skipped); the scan stops
with `true` the moment the counter reaches `k`. -/
def scanRun (k : ℤ) (B M : ℤ → Prop) [DecidablePred B] [DecidablePred M] :
    ℕ → ℤ → ℤ → Bool
  | 0, _, _ => false
  | fuel+1, i, c =>
    let c' := if B i then (if M i then c + 1 else 0) else c
    if k = c' then true else scanRun k B M fuel (i + 1) c'

/-- The counter value after a `scanRun` prefix, ignoring the early
exit. -/
def scanCnt (B M : ℤ → Prop) [DecidablePred B] [DecidablePred M] :
    ℕ → ℤ → ℤ → ℤ
  | 0, _, c => c
  | fuel+1, i, c =>
    scanCnt B M fuel (i + 1) (if B i then (if M i then c + 1 else 0) else c)

/-- `(a, b)` is a cell of the `m × n` board. -/
def onBoard (rs : RuleSet) (a b : ℤ) : Prop :=
  0 ≤ a ∧ a < rs.m ∧ 0 ≤ b ∧ b < rs.n

instance (rs : RuleSet) (a b : ℤ) : Decidable (onBoard rs a b) := by
  unfold onBoard; infer_instance

/-- The four axes scanned by `is_win`: horizontal, vertical, and the
two diagonals. -/
def axes : List (ℤ × ℤ) := [(1, 0), (0, 1), (1, 1), (-1, 1)]

/-- Specification-side win condition, phrased as in the claim: some
straight run of at least `k` consecutive cells equal to `player`, lying
entirely on the board along one of the four axes, passes through
`(x, y)` (offset `0` of the run's parametrisation). -/
def winRunThrough (rs : RuleSet) (board : ℤ → ℤ → ℤ) (player x y : ℤ) : Prop :=
  ∃ d ∈ axes, ∃ j L : ℤ, rs.k ≤ L ∧ j ≤ 0 ∧ 0 ≤ j + L - 1 ∧
    ∀ t, 0 ≤ t → t < L →
      onBoard rs (x + (j + t) * d.1) (y + (j + t) * d.2) ∧
      board (x + (j + t) * d.1) (y + (j + t) * d.2) = player

/-- A window of exactly `k` consecutive on-board `player` cells along
`(dx, dy)` containing offset `0`. -/
def winWindow (rs : RuleSet) (board : ℤ → ℤ → ℤ) (player x y dx dy : ℤ) : Prop :=
  ∃ j : ℤ, -(rs.k - 1) ≤ j ∧ j ≤ 0 ∧
    ∀ t, j ≤ t → t < j + rs.k →
      onBoard rs (x + t * dx) (y + t * dy) ∧
      board (x + t * dx) (y + t * dy) = player

/-- Game lifecycle states (`Game.state` choices in monkey.py). -/
inductive GState
  | waiting | playing | aborted | draw | win
  deriving Repr, DecidableEq

/-- The slice of a `Player` datastore row that the game logic reads and
writes: nickname, whether `user == users.User('cpu@mnk')`, and the three
rating counters. -/
structure PlayerRec where
  nickname : String
  is_cpu : Bool
  wins : ℤ
  losses : ℤ
  draws : ℤ
  deriving Repr, DecidableEq

/-- Which guard of `Game.move` rejected the move (the four distinct
`MoveError` messages of monkey.py, in source order). -/
inductive MoveFail
  | not_in_game | not_playing | not_your_turn | invalid_position
  deriving Repr, DecidableEq

/-- Which guard of `Game.add_player` rejected the join. -/
inductive JoinFail
  | already_in_game | game_full | not_accepting
  deriving Repr, DecidableEq

/-- Which guard of `Game.remove_player` rejected the leave. -/
inductive LeaveFail
  | not_in_game | completed
  deriving Repr, DecidableEq

/-- The exceptions the embedded operations can raise.  `nameError` is
Python's `NameError`, raised when a `raise` statement mentions a global
that is not defined anywhere in the module (the fate of `RegisterError`
in `Player.register`).  `notImplementedError` is raised by
`RuleSet.is_win` for `exact` rule sets. -/
inductive Err
  | joinError (f : JoinFail)
  | leaveError (f : LeaveFail)
  | moveError (f : MoveFail)
  | abortError
  | logInError
  | playerNameError (msg : String)
  | nameError (missing : String)
  | notImplementedError
  deriving Repr, DecidableEq

/-- The `Game` datastore entity (monkey.py).  `data` is the packed
board: a list of digit strings.  `players` holds datastore keys,
modelled as naturals (distinct players have distinct keys).
Timestamps are epoch seconds. -/
structure Game where
  state : GState
  players : List ℕ
  player_names : List String
  current_player : ℤ
  turn : ℤ
  data : List String
  rule_set : RuleSet
  last_update : ℤ
  deriving Repr, DecidableEq

/-- In-bounds read `board[x][y]` of the unpacked board.  Every read in
the source is guarded by a bounds check first (Python `or`/`and` short
circuit), so the default values are never consulted on the guarded
paths. -/
def cell (board : List (List ℤ)) (x y : ℤ) : ℤ :=
  (board.getD x.toNat []).getD y.toNat 0

/-- In-bounds write `board[x][y] = v`. -/
def setCell (board : List (List ℤ)) (x y v : ℤ) : List (List ℤ) :=
  board.set x.toNat ((board.getD x.toNat []).set y.toNat v)

/-- `Game.unpack_board` (monkey.py): each character of each data string
becomes one integer (`int(val)` on a digit character). -/
def Game.unpack_board (g : Game) : List (List ℤ) :=
  g.data.map (fun row => row.toList.map (fun c => (c.toNat : ℤ) - 48))

/-- `Game.pack_board` (monkey.py): `m` strings, the string for column
`x` holding `str(board[x][y])` for `y ∈ xrange(n)`, joined with `''`. -/
def pack_board (rs : RuleSet) (board : List (List ℤ)) : List String :=
  (intRange 0 rs.m).map
    (fun x => String.join ((intRange 0 rs.n).map (fun y => toString (cell board x y))))

/-- The `not self.is_saved()` branch of `Game.put` (monkey.py):
`self.data = ['0' * self.rule_set.m for i in xrange(self.rule_set.n)]`,
i.e. `n` strings each of `m` zero characters. -/
def initData (rs : RuleSet) : List String :=
  (intRange 0 rs.n).map (fun _ => String.mk (List.replicate rs.m.toNat '0'))

/-- `util.contains(board, 0)` (util.py) specialised to a 2-level list of
integers: the recursive `in` finds `v` in some row (a row itself never
equals the integer `v`, so only the recursive branch can succeed). -/
def util_contains (board : List (List ℤ)) (v : ℤ) : Bool :=
  board.any (fun row => row.any (fun c => c = v))

/-- `Game.abort` (monkey.py).  A waiting game is deleted (`none`); a
playing game is marked aborted with `turn = -1` and stored with
`update_time` (so only `state`, `turn` and `last_update` change — no
board cache exists in this flow, so `put` keeps `data` as is); any other
state raises `AbortError`. -/
def Game.abort (g : Game) (now : ℤ) : Except Err (Option Game) :=
  match g.state with
  | .waiting => .ok none
  | .playing => .ok (some { g with state := .aborted, turn := -1, last_update := now })
  | _ => .error .abortError

/-- `Game.add_player` (monkey.py).  `shuffle` is the oracle for
`random.shuffle`; on the full-seating transition the game starts. -/
def Game.add_player (g : Game) (pdb : ℕ → PlayerRec) (pkey : ℕ)
    (shuffle : List ℕ → List ℕ) (now : ℤ) : Except Err Game :=
  if pkey ∈ g.players then .error (.joinError .already_in_game)
  else if g.rule_set.num_players ≤ (g.players.length : ℤ) then .error (.joinError .game_full)
  else if g.state ≠ .waiting then .error (.joinError .not_accepting)
  else
    let players := g.players ++ [pkey]
    if (players.length : ℤ) = g.rule_set.num_players then
      let players' := shuffle players
      .ok { g with players := players', state := .playing, turn := 0, current_player := 1,
                   player_names := players'.map (fun p => (pdb p).nickname),
                   last_update := now }
    else
      .ok { g with players := players,
                   player_names := players.map (fun p => (pdb p).nickname),
                   last_update := now }

/-- `Game.move` (monkey.py): the four guards in source order, then the
commit (place stone, bump `turn`), then completion handling (win: mover
wins, all other seated players lose, `num_games` bump; draw when the
board has no `0` left: everyone draws, `num_games` bump; otherwise
rotate `current_player`).  `put(True)` packs the mutated board cache
back into `data` and refreshes `last_update`. -/
def Game.move (g : Game) (pdb : ℕ → PlayerRec) (pkey : ℕ) (x y : ℤ) (now : ℤ) :
    Except Err (Game × (ℕ → PlayerRec)) :=
  if pkey ∉ g.players then .error (.moveError .not_in_game)
  else if g.state ≠ .playing then .error (.moveError .not_playing)
  else
    let whose := g.current_player
    let player_turn : ℤ := (g.players.indexOf pkey : ℤ) + 1
    if whose ≠ player_turn then .error (.moveError .not_your_turn)
    else
      let rs := g.rule_set
      let board := g.unpack_board
      if x < 0 ∨ rs.m ≤ x ∨ y < 0 ∨ rs.n ≤ y ∨ cell board x y ≠ 0 then
        .error (.moveError .invalid_position)
      else
        let board' := setCell board x y whose
        let turn' := g.turn + 1
        match rs.is_win (fun a b => cell board' a b) player_turn x y with
        | none => .error .notImplementedError
        | some true =>
          let pdb' := fun q =>
            if q = pkey then { pdb q with wins := (pdb q).wins + 1 }
            else if q ∈ g.players then { pdb q with losses := (pdb q).losses + 1 }
            else pdb q
          .ok ({ g with state := .win, turn := turn',
                        rule_set := { rs with num_games := rs.num_games + 1 },
                        data := pack_board rs board', last_update := now }, pdb')
        | some false =>
          if util_contains board' 0 = false then
            let pdb' := fun q =>
              if q ∈ g.players then { pdb q with draws := (pdb q).draws + 1 }
              else pdb q
            .ok ({ g with state := .draw, turn := turn',
                          rule_set := { rs with num_games := rs.num_games + 1 },
                          data := pack_board rs board', last_update := now }, pdb')
          else
            .ok ({ g with turn := turn', current_player := rs.whose_turn turn',
                          data := pack_board rs board', last_update := now }, pdb)

/-- `Game.remove_player` (monkey.py).  In `waiting` the seat is dropped
and the game is deleted when no human (non-CPU) players remain; in
`playing` the game is aborted; a completed game raises `LeaveError`. -/
def Game.remove_player (g : Game) (pdb : ℕ → PlayerRec) (pkey : ℕ) (now : ℤ) :
    Except Err (Option Game) :=
  if pkey ∉ g.players then .error (.leaveError .not_in_game)
  else match g.state with
    | .waiting =>
      let players := g.players.erase pkey
      let humans : ℤ := (players.length : ℤ)
        - ((players.filter (fun p => (pdb p).is_cpu)).length : ℤ)
      if 0 < humans then
        .ok (some { g with players := players,
                           player_names := players.map (fun p => (pdb p).nickname),
                           last_update := now })
      else .ok none
    | .playing => g.abort now
    | _ => .error (.leaveError .completed)

/-- The state a failed `Game.move` leaves behind: the unchanged pair. -/
def applyMove (g : Game) (pdb : ℕ → PlayerRec) (pkey : ℕ) (x y now : ℤ) :
    Game × (ℕ → PlayerRec) :=
  match Game.move g pdb pkey x y now with
  | .ok r => r
  | .error _ => (g, pdb)

/-- The game a failed `Game.add_player` leaves behind. -/
def applyAdd (g : Game) (pdb : ℕ → PlayerRec) (pkey : ℕ)
    (shuffle : List ℕ → List ℕ) (now : ℤ) : Game :=
  match Game.add_player g pdb pkey shuffle now with
  | .ok g2 => g2
  | .error _ => g

/-- The game a `Game.remove_player` call leaves behind (`none` when the
game was deleted). -/
def applyRemove (g : Game) (pdb : ℕ → PlayerRec) (pkey : ℕ) (now : ℤ) :
    Option Game :=
  match Game.remove_player g pdb pkey now with
  | .ok r => r
  | .error _ => some g

/-- The game a `Game.abort` call leaves behind. -/
def applyAbort (g : Game) (now : ℤ) : Option Game :=
  match Game.abort g now with
  | .ok r => r
  | .error _ => some g

/-- The game age in hours computed by `GameService.get_games` (main.py):
`timedelta` normalisation (`days` is floor, `seconds ∈ [0, 86400)`,
matching `Int.ediv`/`Int.emod` with positive modulus) followed by
`age.seconds / 3600.0 + age.days * 24.0`.  At the magnitudes involved
the float arithmetic is far more precise than the 6/48-hour thresholds,
so exact rational arithmetic decides the comparisons identically. -/
def game_age_hours (now last : ℤ) : ℚ :=
  (((now - last) % 86400 : ℤ) : ℚ) / 3600 + (((now - last) / 86400 : ℤ) : ℚ) * 24

/-- The abandonment test of the inactivity sweep (main.py):
waiting for more than 6 hours, or playing for more than 48 hours. -/
def abandoned (now : ℤ) (g : Game) : Prop :=
  (g.state = GState.waiting ∧ (6 : ℚ) < game_age_hours now g.last_update) ∨
  (g.state = GState.playing ∧ (48 : ℚ) < game_age_hours now g.last_update)

instance (now : ℤ) (g : Game) : Decidable (abandoned now g) := by
  unfold abandoned; infer_instance

/-- The inactivity sweep inside `GameService.get_games` (main.py),
restricted to its effect on the stored games: walking the listed games
in order, the first abandoned one is aborted (`Game.abort`: deletion
when waiting, an aborted record when playing) and the loop `break`s, so
every later game is left untouched this request. -/
def sweep_games (now : ℤ) : List Game → List Game
  | [] => []
  | g :: rest =>
    if abandoned now g then
      (match g.abort now with
       | .ok (some g2) => [g2]
       | _ => []) ++ rest
    else g :: sweep_games now rest

/-- Nickname separator class `[\-\._ ]` of `Player.validate`. -/
def isNickSep (c : Char) : Bool := c = '-' || c = '.' || c = '_' || c = ' '

/-- Nickname word class `[A-Z0-9a-z]` of `Player.validate`. -/
def isNickAl (c : Char) : Bool := c.isAlpha || c.isDigit

/-- Recogniser for the tail `([\-\._ ]?[A-Z0-9a-z]+)*` of the nickname
regex: a separator must be followed by at least one word character,
word characters repeat freely, nothing else is allowed. -/
def nickTail : List Char → Bool
  | [] => true
  | c :: rest =>
    if isNickAl c then nickTail rest
    else if isNickSep c then
      match rest with
      | [] => false
      | d :: rest' => isNickAl d && nickTail rest'
    else false

/-- Full match of `^[A-Za-z]([\-\._ ]?[A-Z0-9a-z]+)*$`. -/
def nickname_matches (s : String) : Bool :=
  match s.toList with
  | [] => false
  | c :: rest => c.isAlpha && nickTail rest

/-- `Player.validate` (monkey.py): reserved names, the regex, the two
length bounds and the uniqueness query, in source order.  `existing` is
the set of nicknames already in the datastore. -/
def Player.validate (existing : List String) (nickname : String) : Except Err Unit :=
  if nickname = "Anonymous" ∨ nickname = "CPU" then
    .error (.playerNameError "reserved nickname")
  else if nickname_matches nickname = false then
    .error (.playerNameError "bad pattern")
  else if nickname.length < 3 then
    .error (.playerNameError "too short")
  else if 20 < nickname.length then
    .error (.playerNameError "too long")
  else if nickname ∈ existing then
    .error (.playerNameError "already in use")
  else .ok ()

/-- `Player.register` (monkey.py).  Both failure paths execute
`raise RegisterError(...)`, but no class named `RegisterError` is
defined anywhere in the module (or its imports), so evaluating the
`raise` expression makes Python raise `NameError` for the undefined
global instead.  On success the new nickname row is stored. -/
def Player.register (existing : List String) (nickname password : String) :
    Except Err (List String) :=
  match Player.validate existing nickname with
  | .error _ => .error (.nameError "RegisterError")
  | .ok _ =>
    if password.length < 4 then .error (.nameError "RegisterError")
    else .ok (existing ++ [nickname])

/-- The JSON envelope of `ServiceHandler.get` (util.py): `status` plus,
for errors, `e.__class__.__name__` as the reported type. -/
structure ServiceOut where
  status : String
  rtype : String
  deriving Repr, DecidableEq

/-- The Python class name of each embedded exception, as
`e.__class__.__name__` reports it. -/
def errTypeName : Err → String
  | .joinError _ => "JoinError"
  | .leaveError _ => "LeaveError"
  | .moveError _ => "MoveError"
  | .abortError => "AbortError"
  | .logInError => "LogInError"
  | .playerNameError _ => "PlayerNameError"
  | .nameError _ => "NameError"
  | .notImplementedError => "NotImplementedError"

/-- The `try/except` wrapper of `ServiceHandler.get` (util.py): every
`Exception` is caught and wrapped as
`{status: 'error', response: {type, message}}`. -/
def serviceWrap {α : Type} (r : Except Err α) : ServiceOut :=
  match r with
  | .ok _ => { status := "success", rtype := "" }
  | .error e => { status := "error", rtype := errTypeName e }

/-- The scratch state `CpuPlayer.move` accumulates during its board
scan: the must-block queue `force` and the scored candidate list
`moves`.  Scores are `length * 6.0 + avail` plus `win_length * 2.0` for
own runs; every float involved is an exact small integer, and the only
fractional operation (`mn / 2.0` in the merge pass) is dead code (see
`merge_moves`), so scores are modelled as integers. -/
structure ScanState where
  force : List (ℤ × ℤ)
  moves : List (ℤ × (ℤ × ℤ))
  deriving Repr, DecidableEq

/-- The per-move fields `CpuPlayer.move` copies out of the game before
scanning. -/
structure CpuEnv where
  board : ℤ → ℤ → ℤ
  board_width : ℤ
  board_height : ℤ
  win_length : ℤ
  per_turn : ℤ
  turns_left : ℤ
  index : ℤ

/-- `CpuPlayer.valid` (monkey.py). -/
def CpuEnv.valid (e : CpuEnv) (x y : ℤ) : Prop :=
  0 ≤ x ∧ x < e.board_width ∧ 0 ≤ y ∧ y < e.board_height

instance (e : CpuEnv) (x y : ℤ) : Decidable (e.valid x y) := by
  unfold CpuEnv.valid; infer_instance

/-- `CpuPlayer.handle_move` (monkey.py): an own run one stone short of
`k` (within this turn's budget) raises `ForcedMove`; an opponent run
that could complete within `per_turn` stones is queued in `force`; any
run that can still reach `k` is scored and appended to `moves`. -/
def CpuEnv.handle_move (e : CpuEnv) (s : ScanState) (mv : ℤ × ℤ)
    (player length avail oavail : ℤ) : Except (ℤ × ℤ) ScanState :=
  let cpu := player = e.index
  let max_expansion := min (if cpu then e.turns_left else e.per_turn) avail
  if e.win_length ≤ length + max_expansion ∧ cpu then Except.error mv
  else
    let s1 := if e.win_length ≤ length + max_expansion then
        { s with force := s.force ++ [mv] } else s
    if e.win_length ≤ length + avail + oavail then
      let score : ℤ := length * 6 + avail + (if cpu then e.win_length * 2 else 0)
      Except.ok { s1 with moves := s1.moves ++ [(score, mv)] }
    else Except.ok s1

/-- The state threaded through the expand-point loop of
`CpuPlayer.check`: `al`/`bl` still live, `af`/`bf` free cells seen,
`au`/`bu` same-seat stones seen past gaps, `ac`/`bc` the immediately
adjacent free coordinates. -/
structure ExpandState where
  al : Bool
  bl : Bool
  af : ℤ
  bf : ℤ
  au : ℤ
  bu : ℤ
  ac : Option (ℤ × ℤ)
  bc : Option (ℤ × ℤ)
  deriving Repr, DecidableEq

/-- One iteration (`o`) of the expand-point loop of `CpuPlayer.check`:
probe the cell `o` past the run (after direction) and the cell
`1 + row_len + o` before it. -/
def CpuEnv.expandStep (e : CpuEnv) (prev row_len x y dx dy : ℤ)
    (st : ExpandState) (o : ℤ) : ExpandState :=
  let st :=
    if st.al then
      let ox := x + dx * o
      let oy := y + dy * o
      if e.valid ox oy then
        if e.board ox oy = 0 then
          { st with ac := if o = 0 then some (ox, oy) else st.ac, af := st.af + 1 }
        else if e.board ox oy = prev then
          { st with au := st.au + 1 }
        else { st with al := false }
      else { st with al := false }
    else st
  if st.bl then
    let dOff := 1 + row_len + o
    let ox := x - dx * dOff
    let oy := y - dy * dOff
    if e.valid ox oy then
      if e.board ox oy = 0 then
        { st with bc := if o = 0 then some (ox, oy) else st.bc, bf := st.bf + 1 }
      else if e.board ox oy = prev then
        { st with bu := st.bu + 1 }
      else { st with bl := false }
    else { st with bl := false }
  else st

/-- `CpuPlayer.check` (monkey.py): extend the current run, or emit the
just-ended run's two expand points through `handle_move` and reset the
run length. -/
def CpuEnv.check (e : CpuEnv) (s : ScanState) (cur_player row_len x y dx dy : ℤ) :
    Except (ℤ × ℤ) (ℤ × ℤ × ScanState) :=
  let prev_player := cur_player
  let cur := if e.valid x y then e.board x y else 0
  if 0 < cur ∧ cur = prev_player then Except.ok (cur, row_len + 1, s)
  else if 0 < prev_player then
    let st := (intRange 0 (e.win_length - row_len)).foldl
      (e.expandStep prev_player row_len x y dx dy)
      { al := true, bl := true, af := 0, bf := 0, au := 0, bu := 0,
        ac := none, bc := none }
    match (match st.ac with
           | some mv => e.handle_move s mv prev_player (row_len + st.au) st.af st.bf
           | none => Except.ok s) with
    | Except.error mv => Except.error mv
    | Except.ok s1 =>
      match (match st.bc with
             | some mv => e.handle_move s1 mv prev_player (row_len + st.bu) st.bf st.af
             | none => Except.ok s1) with
      | Except.error mv => Except.error mv
      | Except.ok s2 => Except.ok (cur, 1, s2)
  else Except.ok (cur, 1, s)

/-- The horizontal sweep block of `CpuPlayer.move`: rows `(1,0)`, and —
skipped while `y = 0` — the diagonal sweeps `(1,1)` and `(-1,1)` seeded
from the left column. -/
def CpuEnv.scanH (e : CpuEnv) (s : ScanState) : Except (ℤ × ℤ) ScanState :=
  let ox := e.board_width - 1
  (intRange 0 e.board_height).foldlM (fun s y =>
    ((intRange 0 (e.board_width + 1)).foldlM (fun st x => do
        let (cp1, rl1, cp2, rl2, cp3, rl3, s) := st
        let (cp1, rl1, s) ← e.check s cp1 rl1 x y 1 0
        if y = 0 then
          pure (cp1, rl1, cp2, rl2, cp3, rl3, s)
        else do
          let (cp2, rl2, s) ← e.check s cp2 rl2 x (y + x) 1 1
          let (cp3, rl3, s) ← e.check s cp3 rl3 (ox - x) (y + x) (-1) 1
          pure (cp1, rl1, cp2, rl2, cp3, rl3, s))
      ((0 : ℤ), (0 : ℤ), (0 : ℤ), (0 : ℤ), (0 : ℤ), (0 : ℤ), s)).map
      (fun st : ℤ × ℤ × ℤ × ℤ × ℤ × ℤ × ScanState => st.2.2.2.2.2.2)) s

/-- The vertical sweep block of `CpuPlayer.move`: columns `(0,1)` and
the diagonal sweeps seeded from the top row. -/
def CpuEnv.scanV (e : CpuEnv) (s : ScanState) : Except (ℤ × ℤ) ScanState :=
  (intRange 0 e.board_width).foldlM (fun s x =>
    ((intRange 0 (e.board_height + 1)).foldlM (fun st y => do
        let (cp1, rl1, cp2, rl2, cp3, rl3, s) := st
        let (cp1, rl1, s) ← e.check s cp1 rl1 x y 0 1
        let (cp2, rl2, s) ← e.check s cp2 rl2 (y + x) y 1 1
        let (cp3, rl3, s) ← e.check s cp3 rl3 (-y + x) y (-1) 1
        pure (cp1, rl1, cp2, rl2, cp3, rl3, s))
      ((0 : ℤ), (0 : ℤ), (0 : ℤ), (0 : ℤ), (0 : ℤ), (0 : ℤ), s)).map
      (fun st : ℤ × ℤ × ℤ × ℤ × ℤ × ℤ × ScanState => st.2.2.2.2.2.2)) s

/-- The full scan of `CpuPlayer.move` (`self.force = []`,
`self.moves = []`, horizontal block, vertical block), short-circuited
by a `ForcedMove`. -/
def CpuEnv.scan (e : CpuEnv) : Except (ℤ × ℤ) ScanState := do
  let s ← e.scanH { force := [], moves := [] }
  e.scanV s

/-- The duplicate-merging pass of `CpuPlayer.move` is a no-op: its
inner loop is `for b in xrange(len(m) - 1, a)`, an ascending range that
is empty for every `a` the outer `for a in xrange(len(m))` produces
(the intended backward walk would need step `-1`), so no element is
ever inspected or deleted. -/
def merge_moves (m : List (ℤ × (ℤ × ℤ))) : List (ℤ × (ℤ × ℤ)) := m

/-- The decision tail of `CpuPlayer.move` when the scan survived:
Python sorts the merged moves in place with a comparator randomised via
`random.randint(-1, 1)` (modelled by the `order` oracle — any
permutation of the merged list), then raises `ForcedMove` at the first
sorted entry whose coordinate was queued in `force`, else plays the top
entry; with no scored moves at all it falls through to the
centre-closest-empty-cell loop (`none` here). -/
def cpu_pick (force : List (ℤ × ℤ)) (order : List (ℤ × (ℤ × ℤ))) :
    Option (ℤ × ℤ) :=
  if order = [] then none
  else
    match (if force = [] then none
           else order.find? (fun mv => decide (mv.2 ∈ force))) with
    | some mv => some mv.2
    | none => order.head?.map (fun mv => mv.2)

/-- The location `CpuPlayer.move` submits to `game.move`, given the
sort oracle (`none` only when the centre-closest fallback would run). -/
def cpu_move_loc (e : CpuEnv) (order : List (ℤ × (ℤ × ℤ))) :
    Option (ℤ × ℤ) :=
  match e.scan with
  | Except.error mv => some mv
  | Except.ok s => cpu_pick s.force order

/-- The board of spec scenario 5: opponent (seat 1) stones at (1,1),
(2,1), (3,1) on an otherwise empty 5×5 board. -/
def blockBoard : ℤ → ℤ → ℤ := fun a b =>
  if b = 1 ∧ (a = 1 ∨ a = 2 ∨ a = 3) then 1 else 0

/-- The CPU environment of spec scenario 5: rules (5,5,4,1,1), CPU in
seat 2 to move (with p = q = 1 the source computes `turns_left = 1` at
every turn of the game). -/
def blockEnv : CpuEnv :=
  { board := blockBoard, board_width := 5, board_height := 5,
    win_length := 4, per_turn := 1, turns_left := 1, index := 2 }

/-- The scan state of scenario 5 (the scan raises no `ForcedMove`:
the CPU holds no stones). -/
def blockScan : ScanState :=
  match blockEnv.scan with
  | Except.ok s => s
  | Except.error _ => { force := [], moves := [] }

/-- A concrete rule set used by witnesses (tic-tac-toe row of
`RuleSet.get_list`). -/
def tttRules : RuleSet :=
  { name := "Tic-tac-toe", num_players := 2, num_games := 0,
    exact := false, m := 3, n := 3, k := 3, p := 1, q := 1 }

/-- A concrete playing tic-tac-toe game used by witnesses and
counterexamples. -/
def tttGame : Game :=
  { state := .playing, players := [10, 11], player_names := ["Ann", "Ben"],
    current_player := 1, turn := 0,
    data := ["000", "000", "000"], rule_set := tttRules, last_update := 0 }

/-- A concrete player table for witnesses. -/
def tttPdb : ℕ → PlayerRec := fun q =>
  if q = 10 then { nickname := "Ann", is_cpu := false, wins := 0, losses := 0, draws := 0 }
  else if q = 11 then { nickname := "Ben", is_cpu := false, wins := 0, losses := 0, draws := 0 }
  else { nickname := "Anonymous", is_cpu := false, wins := 0, losses := 0, draws := 0 }

/-- A concrete waiting game last touched at epoch 0, used in the C6
counterexample. -/
def staleWaitingGame : Game :=
  { state := .waiting, players := [10], player_names := ["Ann"],
    current_player := 0, turn := -1,
    data := ["000", "000", "000"], rule_set := tttRules, last_update := 0 }

/-- A concrete board function (player 1 on the main diagonal) used by
the C1 witness. -/
def diagBoard : ℤ → ℤ → ℤ := fun a b => if a = b then 1 else 0

/-- A 4-wide, 2-high rule set exposing the transposed board
initialisation of `Game.put`. -/
def wideRules : RuleSet :=
  { name := "wide", num_players := 2, num_games := 0,
    exact := false, m := 4, n := 2, k := 3, p := 1, q := 1 }

end Monkey

namespace Monkey

/-! ## Theorems -/

/-! ### The one-axis scan: generic lemmas -/

/-- Splitting a scan window: the early exit commutes with running the
first `n` steps and then the remaining `m` from the intermediate
counter. -/
theorem scanRun_append (k : ℤ) (B M : ℤ → Prop)
    [DecidablePred B] [DecidablePred M] :
    ∀ (n m : ℕ) (i c : ℤ),
      scanRun k B M (n + m) i c
        = (scanRun k B M n i c
            || scanRun k B M m (i + (n : ℤ)) (scanCnt B M n i c)) := by
  intro n
  induction n with
  | zero =>
    intro m i c
    simp [scanRun, scanCnt]
  | succ n ih =>
    intro m i c
    rw [Nat.succ_add]
    simp only [scanRun, scanCnt]
    by_cases h : k = (if B i then (if M i then c + 1 else 0) else c)
    · rw [if_pos h, if_pos h, Bool.true_or]
    · rw [if_neg h, if_neg h]
      rw [ih m (i + 1) _]
      have he : i + 1 + (n : ℤ) = i + ((n + 1 : ℕ) : ℤ) := by push_cast; ring
      rw [he]

/-- A stretch of failed bounds checks neither moves the counter nor
triggers the exit (provided the counter is not already at `k`). -/
theorem scanRun_skip (k : ℤ) (B M : ℤ → Prop)
    [DecidablePred B] [DecidablePred M] :
    ∀ (n : ℕ) (i c : ℤ), (∀ t, i ≤ t → t < i + (n : ℤ) → ¬ B t) → k ≠ c →
      scanRun k B M n i c = false ∧ scanCnt B M n i c = c := by
  intro n
  induction n with
  | zero => intro i c _ _; exact ⟨rfl, rfl⟩
  | succ n ih =>
    intro i c hB hk
    have hBi : ¬ B i := hB i le_rfl (by push_cast; omega)
    simp only [scanRun, scanCnt, if_neg hBi, if_neg hk]
    exact ih (i + 1) c
      (fun t h1 h2 => hB t (by omega) (by push_cast at h2 ⊢; omega)) hk

/-- If the exit never fired and the counter did not start at `k`, the
final counter is not `k` either (every intermediate value was
checked). -/
theorem scanRun_false_cnt (k : ℤ) (B M : ℤ → Prop)
    [DecidablePred B] [DecidablePred M] :
    ∀ (n : ℕ) (i c : ℤ), scanRun k B M n i c = false → k ≠ c →
      k ≠ scanCnt B M n i c := by
  intro n
  induction n with
  | zero => intro i c _ hk; simpa [scanCnt] using hk
  | succ n ih =>
    intro i c hs hk
    by_cases h : k = (if B i then (if M i then c + 1 else 0) else c)
    · rw [scanRun, if_pos h] at hs
      exact absurd hs (by simp)
    · rw [scanRun, if_neg h] at hs
      rw [scanCnt]
      exact ih (i + 1) _ hs h

/-- The heart of the win detector: over a stretch where every bounds
check passes, the scan (entered with a live streak of length `c`)
reports `true` exactly when `k` consecutive matching positions exist,
possibly reaching back into the entry streak. -/
theorem scanRun_core (k : ℤ) (B M : ℤ → Prop)
    [DecidablePred B] [DecidablePred M] :
    ∀ (n : ℕ) (i c : ℤ), 0 ≤ c → c < k →
      (∀ t, 1 ≤ t → t ≤ c → B (i - t) ∧ M (i - t)) →
      (∀ t, i ≤ t → t < i + (n : ℤ) → B t) →
      (scanRun k B M n i c = true ↔
        ∃ j, i - c ≤ j ∧ j + k ≤ i + (n : ℤ) ∧
          ∀ t, j ≤ t → t < j + k → B t ∧ M t) := by
  intro n
  induction n with
  | zero =>
    intro i c hc hck _ _
    simp only [scanRun, Nat.cast_zero, add_zero]
    constructor
    · intro h; exact absurd h (by simp)
    · rintro ⟨j, h1, h2, _⟩
      exfalso; omega
  | succ n ih =>
    intro i c hc hck hs hB
    have hBi : B i := hB i le_rfl (by push_cast; omega)
    by_cases hM : M i
    · by_cases hkc : k = c + 1
      · have hT : scanRun k B M (n + 1) i c = true := by
          rw [scanRun]
          rw [if_pos hBi, if_pos hM, if_pos hkc]
        rw [hT]
        simp only [true_iff]
        refine ⟨i - c, le_rfl, by push_cast; omega, ?_⟩
        intro t h1 h2
        rcases lt_or_ge t i with h | h
        · have := hs (i - t) (by omega) (by omega)
          rwa [show i - (i - t) = t by ring] at this
        · have ht : t = i := by omega
          rw [ht]
          exact ⟨hBi, hM⟩
      · have hstep : scanRun k B M (n + 1) i c = scanRun k B M n (i + 1) (c + 1) := by
          rw [scanRun]
          rw [if_pos hBi, if_pos hM, if_neg hkc]
        have hstreak : ∀ t, 1 ≤ t → t ≤ c + 1 → B (i + 1 - t) ∧ M (i + 1 - t) := by
          intro t h1 h2
          rcases eq_or_lt_of_le h1 with h | h
          · rw [show i + 1 - t = i by omega]
            exact ⟨hBi, hM⟩
          · have := hs (t - 1) (by omega) (by omega)
            rwa [show i + 1 - t = i - (t - 1) by ring]
        have hB' : ∀ t, i + 1 ≤ t → t < i + 1 + (n : ℤ) → B t :=
          fun t h1 h2 => hB t (by omega) (by push_cast at h2 ⊢; omega)
        rw [hstep, ih (i + 1) (c + 1) (by omega) (by omega) hstreak hB']
        constructor
        · rintro ⟨j, h1, h2, h3⟩
          exact ⟨j, by omega, by push_cast at h2 ⊢; omega, h3⟩
        · rintro ⟨j, h1, h2, h3⟩
          exact ⟨j, by omega, by push_cast at h2 ⊢; omega, h3⟩
    · have hk0 : k ≠ 0 := by omega
      have hstep : scanRun k B M (n + 1) i c = scanRun k B M n (i + 1) 0 := by
        rw [scanRun]
        rw [if_pos hBi, if_neg hM, if_neg hk0]
      have hB' : ∀ t, i + 1 ≤ t → t < i + 1 + (n : ℤ) → B t :=
        fun t h1 h2 => hB t (by omega) (by push_cast at h2 ⊢; omega)
      rw [hstep, ih (i + 1) 0 le_rfl (by omega)
        (fun t h1 h2 => absurd h1 (by omega)) hB']
      constructor
      · rintro ⟨j, h1, h2, h3⟩
        exact ⟨j, by omega, by push_cast at h2 ⊢; omega, h3⟩
      · rintro ⟨j, h1, h2, h3⟩
        refine ⟨j, ?_, by push_cast at h2 ⊢; omega, h3⟩
        by_contra hlt
        push_neg at hlt
        exact hM (h3 i (by omega) (by omega)).2

/-- Full characterisation of a scan from counter `0` when the bounds
check is an interval `[lo, hi)`: the result is `true` exactly when some
`k` consecutive in-bounds matching positions lie inside the scanned
window. -/
theorem scanRun_interval (k lo hi : ℤ) (B M : ℤ → Prop)
    [DecidablePred B] [DecidablePred M]
    (hBiff : ∀ i, B i ↔ (lo ≤ i ∧ i < hi)) (hk : 1 ≤ k) (N : ℕ) (A : ℤ) :
    (scanRun k B M N A 0 = true ↔
      ∃ j, A ≤ j ∧ j + k ≤ A + (N : ℤ) ∧
        ∀ t, j ≤ t → t < j + k → (lo ≤ t ∧ t < hi) ∧ M t) := by
  have hN0 : (0 : ℤ) ≤ (N : ℤ) := Int.natCast_nonneg N
  obtain ⟨L, H, hAL, hLH, hHN, hpre0, hcore, hsuf0, hincl⟩ :
      ∃ L H : ℤ, A ≤ L ∧ L ≤ H ∧ H ≤ A + (N : ℤ) ∧
        (∀ t, A ≤ t → t < L → ¬ (lo ≤ t ∧ t < hi)) ∧
        (∀ t, L ≤ t → t < H → (lo ≤ t ∧ t < hi)) ∧
        (∀ t, H ≤ t → t < A + (N : ℤ) → ¬ (lo ≤ t ∧ t < hi)) ∧
        (∀ j, lo ≤ j → j + k ≤ hi → A ≤ j → j + k ≤ A + (N : ℤ) →
          (L ≤ j ∧ j + k ≤ H)) := by
    refine ⟨max A (min lo (A + (N : ℤ))),
      max (max A (min lo (A + (N : ℤ)))) (min hi (A + (N : ℤ))),
      by omega, by omega, by omega, ?_, ?_, ?_, ?_⟩
    · intro t h1 h2; omega
    · intro t h1 h2; omega
    · intro t h1 h2; omega
    · intro j h1 h2 h3 h4; omega
  have hpre : ∀ t, A ≤ t → t < L → ¬ B t :=
    fun t h1 h2 hBt => hpre0 t h1 h2 ((hBiff t).mp hBt)
  have hsuf : ∀ t, H ≤ t → t < A + (N : ℤ) → ¬ B t :=
    fun t h1 h2 hBt => hsuf0 t h1 h2 ((hBiff t).mp hBt)
  obtain ⟨n1, hn1⟩ : ∃ n1 : ℕ, (n1 : ℤ) = L - A :=
    ⟨(L - A).toNat, Int.toNat_of_nonneg (by omega)⟩
  obtain ⟨n2, hn2⟩ : ∃ n2 : ℕ, (n2 : ℤ) = H - L :=
    ⟨(H - L).toNat, Int.toNat_of_nonneg (by omega)⟩
  obtain ⟨n3, hn3⟩ : ∃ n3 : ℕ, (n3 : ℤ) = A + (N : ℤ) - H :=
    ⟨(A + (N : ℤ) - H).toNat, Int.toNat_of_nonneg (by omega)⟩
  have hk0 : k ≠ 0 := by omega
  have hNn : N = n1 + (n2 + n3) := by omega
  rw [hNn, scanRun_append k B M n1 (n2 + n3) A 0]
  have hskip1 := scanRun_skip k B M n1 A 0
    (fun t h1 h2 => hpre t h1 (by omega)) hk0
  rw [hskip1.1, hskip1.2, Bool.false_or, show A + (n1 : ℤ) = L by omega,
    scanRun_append k B M n2 n3 L 0, show L + (n2 : ℤ) = H by omega]
  have hcoreiff := scanRun_core k B M n2 L 0 le_rfl (by omega)
    (fun t h1 h2 => absurd h1 (by omega))
    (fun t h1 h2 => (hBiff t).mpr (hcore t h1 (by omega)))
  by_cases hs2 : scanRun k B M n2 L 0 = true
  · rw [hs2, Bool.true_or]
    simp only [true_iff]
    obtain ⟨j, h1, h2, h3⟩ := hcoreiff.mp hs2
    refine ⟨j, by omega, by omega, ?_⟩
    intro t ht1 ht2
    obtain ⟨hBt, hMt⟩ := h3 t ht1 ht2
    exact ⟨(hBiff t).mp hBt, hMt⟩
  · simp only [Bool.not_eq_true] at hs2
    rw [hs2, Bool.false_or]
    have hcnt := scanRun_false_cnt k B M n2 L 0 hs2 hk0
    have hskip3 := scanRun_skip k B M n3 H (scanCnt B M n2 L 0)
      (fun t h1 h2 => hsuf t h1 (by omega)) hcnt
    rw [hskip3.1]
    constructor
    · intro h; exact absurd h (by simp)
    · rintro ⟨j, h1, h2, h3⟩
      have hjlo : lo ≤ j := (h3 j le_rfl (by omega)).1.1
      have hjhi : j + k ≤ hi := by
        have := (h3 (j + k - 1) (by omega) (by omega)).1.2
        omega
      have h2' : j + k ≤ A + (N : ℤ) := by push_cast at h2 ⊢; omega
      obtain ⟨hjL, hjH⟩ := hincl j hjlo hjhi h1 h2'
      have : scanRun k B M n2 L 0 = true := by
        refine hcoreiff.mpr ⟨j, by omega, by omega, ?_⟩
        intro t ht1 ht2
        exact ⟨(hBiff t).mpr (h3 t ht1 ht2).1, (h3 t ht1 ht2).2⟩
      rw [this] at hs2
      exact absurd hs2 (by simp)

/-- Distributing an early-exit test over four independent flags. -/
theorem if_or4 (p1 p2 p3 p4 : Prop)
    [Decidable p1] [Decidable p2] [Decidable p3] [Decidable p4]
    (b1 b2 b3 b4 : Bool) :
    (if p1 ∨ p2 ∨ p3 ∨ p4 then true else (b1 || b2 || b3 || b4))
      = ((if p1 then true else b1) || (if p2 then true else b2)
          || (if p3 then true else b3) || (if p4 then true else b4)) := by
  by_cases h1 : p1 <;> by_cases h2 : p2 <;> by_cases h3 : p3 <;> by_cases h4 : p4 <;>
    simp [h1, h2, h3, h4]

/-- The four interleaved counters of `is_win_loop` behave as four
independent one-axis scans. -/
theorem is_win_loop_eq_scans (rs : RuleSet) (board : ℤ → ℤ → ℤ) (player x y : ℤ)
    (hex : rs.exact = false) :
    ∀ (fuel : ℕ) (i ca cb cc cd : ℤ),
      rs.is_win_loop board player x y fuel i (ca, cb, cc, cd)
        = (scanRun rs.k (fun t => 0 ≤ x + t ∧ x + t < rs.m)
             (fun t => board (x + t) y = player) fuel i ca
           || scanRun rs.k (fun t => 0 ≤ y + t ∧ y + t < rs.n)
             (fun t => board x (y + t) = player) fuel i cb
           || scanRun rs.k (fun t => 0 ≤ x + t ∧ 0 ≤ y + t ∧ x + t < rs.m ∧ y + t < rs.n)
             (fun t => board (x + t) (y + t) = player) fuel i cc
           || scanRun rs.k (fun t => 0 ≤ x - t ∧ 0 ≤ y + t ∧ x - t < rs.m ∧ y + t < rs.n)
             (fun t => board (x - t) (y + t) = player) fuel i cd) := by
  intro fuel
  induction fuel with
  | zero => intro i ca cb cc cd; rfl
  | succ fuel ih =>
    intro i ca cb cc cd
    simp only [RuleSet.is_win_loop, scanRun, hex, eq_self_iff_true, true_and]
    rw [ih]
    exact if_or4 _ _ _ _ _ _ _ _

/-- A run of length at least `k` through offset `0` exists exactly when
a window of exactly `k` consecutive good offsets containing `0`
exists. -/
theorem run_window_equiv (k : ℤ) (hk : 1 ≤ k) (good : ℤ → Prop) :
    (∃ j L : ℤ, k ≤ L ∧ j ≤ 0 ∧ 0 ≤ j + L - 1 ∧
        ∀ t, 0 ≤ t → t < L → good (j + t)) ↔
    (∃ j : ℤ, -(k - 1) ≤ j ∧ j ≤ 0 ∧ ∀ t, j ≤ t → t < j + k → good t) := by
  constructor
  · rintro ⟨j, L, h1, h2, h3, h4⟩
    refine ⟨max j (1 - k), by omega, by omega, ?_⟩
    intro t ht1 ht2
    have := h4 (t - j) (by omega) (by omega)
    rwa [show j + (t - j) = t by ring] at this
  · rintro ⟨j, h1, h2, h3⟩
    exact ⟨j, k, le_rfl, h2, by omega,
      fun t ht1 ht2 => h3 (j + t) (by omega) (by omega)⟩

/-- C1: with `exact = false`, `is_win` reports a win at an on-board
`(x, y)` exactly when some straight run of at least `k` consecutive
`player` cells, entirely on the board along one of the four axes,
passes through `(x, y)`. -/
theorem is_win_iff_winRunThrough (rs : RuleSet) (board : ℤ → ℤ → ℤ)
    (player x y : ℤ) (hv : rs.valid) (hex : rs.exact = false)
    (hx1 : 0 ≤ x) (hx2 : x < rs.m) (hy1 : 0 ≤ y) (hy2 : y < rs.n) :
    (rs.is_win board player x y = some true ↔
      winRunThrough rs board player x y) := by
  obtain ⟨hN1, hN2, hm, hn, hk, hp, hq⟩ := hv
  unfold RuleSet.is_win
  rw [if_neg (by simp [hex])]
  simp only [Option.some.injEq]
  rw [is_win_loop_eq_scans rs board player x y hex]
  simp only [Bool.or_eq_true, or_assoc]
  have hNcast : (((2 * rs.k - 1).toNat : ℕ) : ℤ) = 2 * rs.k - 1 :=
    Int.toNat_of_nonneg (by omega)
  -- axis characterisations
  have w1 : (scanRun rs.k (fun t => 0 ≤ x + t ∧ x + t < rs.m)
      (fun t => board (x + t) y = player) (2 * rs.k - 1).toNat (-rs.k + 1) 0 = true)
      ↔ winWindow rs board player x y 1 0 := by
    rw [scanRun_interval rs.k (-x) (rs.m - x) _ _ (fun i => by omega) hk _ _]
    unfold winWindow onBoard
    constructor
    · rintro ⟨j, h1, h2, h3⟩
      refine ⟨j, by omega, by omega, ?_⟩
      intro t ht1 ht2
      obtain ⟨⟨hb1, hb2⟩, hmm⟩ := h3 t ht1 ht2
      rw [show x + t * 1 = x + t by ring, show y + t * 0 = y by ring]
      exact ⟨⟨by omega, by omega, hy1, hy2⟩, hmm⟩
    · rintro ⟨j, h1, h2, h3⟩
      refine ⟨j, by omega, by omega, ?_⟩
      intro t ht1 ht2
      have := h3 t ht1 ht2
      rw [show x + t * 1 = x + t by ring, show y + t * 0 = y by ring] at this
      obtain ⟨⟨ha, hb, _, _⟩, hmm⟩ := this
      exact ⟨⟨by omega, by omega⟩, hmm⟩
  have w2 : (scanRun rs.k (fun t => 0 ≤ y + t ∧ y + t < rs.n)
      (fun t => board x (y + t) = player) (2 * rs.k - 1).toNat (-rs.k + 1) 0 = true)
      ↔ winWindow rs board player x y 0 1 := by
    rw [scanRun_interval rs.k (-y) (rs.n - y) _ _ (fun i => by omega) hk _ _]
    unfold winWindow onBoard
    constructor
    · rintro ⟨j, h1, h2, h3⟩
      refine ⟨j, by omega, by omega, ?_⟩
      intro t ht1 ht2
      obtain ⟨⟨hb1, hb2⟩, hmm⟩ := h3 t ht1 ht2
      rw [show x + t * 0 = x by ring, show y + t * 1 = y + t by ring]
      exact ⟨⟨hx1, hx2, by omega, by omega⟩, hmm⟩
    · rintro ⟨j, h1, h2, h3⟩
      refine ⟨j, by omega, by omega, ?_⟩
      intro t ht1 ht2
      have := h3 t ht1 ht2
      rw [show x + t * 0 = x by ring, show y + t * 1 = y + t by ring] at this
      obtain ⟨⟨_, _, hc, hd⟩, hmm⟩ := this
      exact ⟨⟨by omega, by omega⟩, hmm⟩
  have w3 : (scanRun rs.k
      (fun t => 0 ≤ x + t ∧ 0 ≤ y + t ∧ x + t < rs.m ∧ y + t < rs.n)
      (fun t => board (x + t) (y + t) = player) (2 * rs.k - 1).toNat (-rs.k + 1) 0 = true)
      ↔ winWindow rs board player x y 1 1 := by
    rw [scanRun_interval rs.k (max (-x) (-y)) (min (rs.m - x) (rs.n - y)) _ _
      (fun i => by omega) hk _ _]
    unfold winWindow onBoard
    constructor
    · rintro ⟨j, h1, h2, h3⟩
      refine ⟨j, by omega, by omega, ?_⟩
      intro t ht1 ht2
      obtain ⟨⟨hb1, hb2⟩, hmm⟩ := h3 t ht1 ht2
      rw [show x + t * 1 = x + t by ring, show y + t * 1 = y + t by ring]
      exact ⟨⟨by omega, by omega, by omega, by omega⟩, hmm⟩
    · rintro ⟨j, h1, h2, h3⟩
      refine ⟨j, by omega, by omega, ?_⟩
      intro t ht1 ht2
      have := h3 t ht1 ht2
      rw [show x + t * 1 = x + t by ring, show y + t * 1 = y + t by ring] at this
      obtain ⟨⟨ha, hb, hc, hd⟩, hmm⟩ := this
      exact ⟨⟨by omega, by omega⟩, hmm⟩
  have w4 : (scanRun rs.k
      (fun t => 0 ≤ x - t ∧ 0 ≤ y + t ∧ x - t < rs.m ∧ y + t < rs.n)
      (fun t => board (x - t) (y + t) = player) (2 * rs.k - 1).toNat (-rs.k + 1) 0 = true)
      ↔ winWindow rs board player x y (-1) 1 := by
    rw [scanRun_interval rs.k (max (x - rs.m + 1) (-y)) (min (x + 1) (rs.n - y)) _ _
      (fun i => by omega) hk _ _]
    unfold winWindow onBoard
    constructor
    · rintro ⟨j, h1, h2, h3⟩
      refine ⟨j, by omega, by omega, ?_⟩
      intro t ht1 ht2
      obtain ⟨⟨hb1, hb2⟩, hmm⟩ := h3 t ht1 ht2
      rw [show x + t * (-1) = x - t by ring, show y + t * 1 = y + t by ring]
      exact ⟨⟨by omega, by omega, by omega, by omega⟩, hmm⟩
    · rintro ⟨j, h1, h2, h3⟩
      refine ⟨j, by omega, by omega, ?_⟩
      intro t ht1 ht2
      have := h3 t ht1 ht2
      rw [show x + t * (-1) = x - t by ring, show y + t * 1 = y + t by ring] at this
      obtain ⟨⟨ha, hb, hc, hd⟩, hmm⟩ := this
      exact ⟨⟨by omega, by omega⟩, hmm⟩
  rw [w1, w2, w3, w4]
  -- the claim-side predicate splits over the four axes
  unfold winRunThrough
  simp only [axes, List.mem_cons, List.not_mem_nil, or_false, exists_eq_or_imp,
    exists_eq_left]
  constructor
  · rintro (h | h | h | h)
    · exact Or.inl ((run_window_equiv rs.k hk _).mpr h)
    · exact Or.inr (Or.inl ((run_window_equiv rs.k hk _).mpr h))
    · exact Or.inr (Or.inr (Or.inl ((run_window_equiv rs.k hk _).mpr h)))
    · exact Or.inr (Or.inr (Or.inr ((run_window_equiv rs.k hk _).mpr h)))
  · rintro (h | h | h | h)
    · exact Or.inl ((run_window_equiv rs.k hk _).mp h)
    · exact Or.inr (Or.inl ((run_window_equiv rs.k hk _).mp h))
    · exact Or.inr (Or.inr (Or.inl ((run_window_equiv rs.k hk _).mp h)))
    · exact Or.inr (Or.inr (Or.inr ((run_window_equiv rs.k hk _).mp h)))

/-- Witness for C1: the tic-tac-toe rules and the main-diagonal board
at the centre cell, where `is_win` indeed evaluates to a win. -/
theorem is_win_iff_winRunThrough_witness :
    tttRules.valid ∧
    (tttRules.is_win diagBoard 1 1 1 = some true ↔
      winRunThrough tttRules diagBoard 1 1 1) ∧
    tttRules.is_win diagBoard 1 1 1 = some true :=
  ⟨by decide,
   is_win_iff_winRunThrough tttRules diagBoard 1 1 1 (by decide) rfl
     (by decide) (by decide) (by decide) (by decide),
   by decide⟩

/-- C4: in the 2-player (5,5,4,1,1) scenario with the opponent holding
(1,1), (2,1), (3,1) and the CPU (which holds no stones, hence has no
winning move) to move, `CpuPlayer.move` chooses (0,1) or (4,1) — the
two blocks of the open three — whatever the randomised sort produced:
both ends of the threat are queued in `force`, both appear among the
scored moves, and the forced-block step fires on the first of them in
sort order. -/
theorem cpu_blocks_open_three (order : List (ℤ × (ℤ × ℤ)))
    (hperm : order.Perm (merge_moves blockScan.moves)) :
    cpu_move_loc blockEnv order = some (0, 1) ∨
    cpu_move_loc blockEnv order = some (4, 1) := by
  have hscan : blockEnv.scan = Except.ok blockScan := by rfl
  have hforce : ∀ mv ∈ blockScan.force,
      mv = ((0 : ℤ), (1 : ℤ)) ∨ mv = ((4 : ℤ), (1 : ℤ)) := by decide
  have hforce_ne : blockScan.force ≠ [] := by decide
  have hsome : ((19 : ℤ), ((4 : ℤ), (1 : ℤ))) ∈ blockScan.moves ∧
      ((4 : ℤ), (1 : ℤ)) ∈ blockScan.force := by decide
  have hmv0 : ((19 : ℤ), ((4 : ℤ), (1 : ℤ))) ∈ order :=
    hperm.mem_iff.mpr hsome.1
  have hne : order ≠ [] := List.ne_nil_of_mem hmv0
  obtain ⟨mvf, hf⟩ : ∃ mvf,
      order.find? (fun mv => decide (mv.2 ∈ blockScan.force)) = some mvf := by
    rcases hfs : order.find? (fun mv => decide (mv.2 ∈ blockScan.force)) with _ | mvf
    · exfalso
      have := List.find?_eq_none.mp hfs _ hmv0
      simp only [decide_eq_true_eq] at this
      exact this hsome.2
    · exact ⟨mvf, hfs⟩
  have hpf := @List.find?_some (ℤ × (ℤ × ℤ))
    (fun mv => decide (mv.2 ∈ blockScan.force)) mvf order hf
  have hmem : mvf.2 ∈ blockScan.force := of_decide_eq_true hpf
  have hred : cpu_move_loc blockEnv order = cpu_pick blockScan.force order := by
    unfold cpu_move_loc
    rw [hscan]
  rw [hred]
  unfold cpu_pick
  rw [if_neg hne, if_neg hforce_ne, hf]
  rcases hforce mvf.2 hmem with h | h
  · left
    show some mvf.2 = some (0, 1)
    rw [h]
  · right
    show some mvf.2 = some (4, 1)
    rw [h]

/-- Witness for C4: the identity sort order. -/
theorem cpu_blocks_open_three_witness :
    cpu_move_loc blockEnv blockScan.moves = some (0, 1) ∨
    cpu_move_loc blockEnv blockScan.moves = some (4, 1) :=
  cpu_blocks_open_three blockScan.moves (List.Perm.refl _)

/-- C7: the turn rotation is periodic with period `numPlayers × p`. -/
theorem whose_turn_periodic (rs : RuleSet) (turn : ℤ)
    (hN : 2 ≤ rs.num_players) (hp : 1 ≤ rs.p) (hq : 1 ≤ rs.q)
    (ht : rs.q ≤ turn) :
    rs.whose_turn turn = rs.whose_turn (turn + rs.num_players * rs.p) := by
  unfold RuleSet.whose_turn
  have h1 : ¬ turn < rs.q := by omega
  have h2 : ¬ turn + rs.num_players * rs.p < rs.q := by nlinarith
  rw [if_neg h1, if_neg h2]
  have hdiv : (turn + rs.num_players * rs.p - rs.q) / rs.p
      = (turn - rs.q) / rs.p + rs.num_players := by
    have : turn + rs.num_players * rs.p - rs.q
        = (turn - rs.q) + rs.num_players * rs.p := by ring
    rw [this, Int.add_mul_ediv_right _ _ (by omega : rs.p ≠ 0)]
  rw [hdiv]
  have : (turn - rs.q) / rs.p + rs.num_players + 1
      = (turn - rs.q) / rs.p + 1 + rs.num_players * 1 := by ring
  rw [this, Int.add_mul_emod_self_left]

/-- Witness for C7 at a concrete rule set and turn. -/
theorem whose_turn_periodic_witness :
    let rs : RuleSet :=
      { name := "Connect6", num_players := 2, num_games := 0,
        exact := false, m := 19, n := 19, k := 6, p := 2, q := 1 }
    rs.whose_turn 5 = rs.whose_turn (5 + rs.num_players * rs.p) :=
  whose_turn_periodic _ 5 (by decide) (by decide) (by decide) (by decide)

/-- C10: `whose_turn` always returns a seat in `[1, numPlayers]`, hence
`players[current_player - 1]` in `Game.handle_cpu` is a valid list index
whenever the roster is full and `current_player` was produced by
`whose_turn`. -/
theorem whose_turn_range (rs : RuleSet) (turn : ℤ)
    (hN : 2 ≤ rs.num_players) (hp : 1 ≤ rs.p) (hq : 1 ≤ rs.q)
    (ht : 0 ≤ turn) :
    (1 ≤ rs.whose_turn turn ∧ rs.whose_turn turn ≤ rs.num_players) ∧
    ∀ players : List ℕ, (players.length : ℤ) = rs.num_players →
      0 ≤ rs.whose_turn turn - 1 ∧
      (rs.whose_turn turn - 1).toNat < players.length := by
  have hrange : 1 ≤ rs.whose_turn turn ∧ rs.whose_turn turn ≤ rs.num_players := by
    unfold RuleSet.whose_turn
    split
    · omega
    · have h0 : 0 ≤ ((turn - rs.q) / rs.p + 1) % rs.num_players :=
        Int.emod_nonneg _ (by omega)
      have h1 : ((turn - rs.q) / rs.p + 1) % rs.num_players < rs.num_players :=
        Int.emod_lt_of_pos _ (by omega)
      omega
  refine ⟨hrange, fun players hlen => ?_⟩
  omega

/-- Witness for C10 at a concrete rule set, turn and roster. -/
theorem whose_turn_range_witness :
    let rs : RuleSet :=
      { name := "Free-style gomoku", num_players := 2, num_games := 0,
        exact := false, m := 19, n := 19, k := 5, p := 1, q := 1 }
    (1 ≤ rs.whose_turn 7 ∧ rs.whose_turn 7 ≤ rs.num_players) ∧
    ∀ players : List ℕ, (players.length : ℤ) = rs.num_players →
      0 ≤ rs.whose_turn 7 - 1 ∧
      (rs.whose_turn 7 - 1).toNat < players.length :=
  whose_turn_range _ 7 (by decide) (by decide) (by decide) (by decide)

/-- C2: the four failure guards of `Game.move` fire in source order
(not seated, not playing, not the mover's turn, invalid position), each
as a `MoveError`, and a rejected move leaves the game state and the
player counters exactly as they were. -/
theorem move_guard_order (g : Game) (pdb : ℕ → PlayerRec) (pkey : ℕ) (x y now : ℤ) :
    (pkey ∉ g.players →
      Game.move g pdb pkey x y now = .error (.moveError .not_in_game)) ∧
    (pkey ∈ g.players → g.state ≠ .playing →
      Game.move g pdb pkey x y now = .error (.moveError .not_playing)) ∧
    (pkey ∈ g.players → g.state = .playing →
      g.current_player ≠ (g.players.indexOf pkey : ℤ) + 1 →
      Game.move g pdb pkey x y now = .error (.moveError .not_your_turn)) ∧
    (pkey ∈ g.players → g.state = .playing →
      g.current_player = (g.players.indexOf pkey : ℤ) + 1 →
      (x < 0 ∨ g.rule_set.m ≤ x ∨ y < 0 ∨ g.rule_set.n ≤ y ∨
        cell g.unpack_board x y ≠ 0) →
      Game.move g pdb pkey x y now = .error (.moveError .invalid_position)) ∧
    (∀ e, Game.move g pdb pkey x y now = .error e →
      applyMove g pdb pkey x y now = (g, pdb)) := by
  refine ⟨?_, ?_, ?_, ?_, ?_⟩
  · intro h1
    simp only [Game.move, if_pos h1]
  · intro h1 h2
    simp only [Game.move, if_neg (not_not_intro h1), if_pos h2]
  · intro h1 h2 h3
    simp only [Game.move, if_neg (not_not_intro h1),
      if_neg (not_not_intro h2), if_pos h3]
  · intro h1 h2 h3 h4
    simp only [Game.move, if_neg (not_not_intro h1), if_neg (not_not_intro h2),
      if_neg (not_not_intro h3), if_pos h4]
  · intro e he
    simp only [applyMove, he]

/-- Witness for C2: each guard observed failing on a concrete game. -/
theorem move_guard_order_witness :
    Game.move tttGame tttPdb 99 0 0 5 = .error (.moveError .not_in_game) ∧
    Game.move tttGame tttPdb 11 0 0 5 = .error (.moveError .not_your_turn) ∧
    Game.move tttGame tttPdb 10 3 0 5 = .error (.moveError .invalid_position) ∧
    applyMove tttGame tttPdb 99 0 0 5 = (tttGame, tttPdb) := by
  have h99 := move_guard_order tttGame tttPdb 99 0 0 5
  have h11 := move_guard_order tttGame tttPdb 11 0 0 5
  have h10 := move_guard_order tttGame tttPdb 10 3 0 5
  refine ⟨h99.1 (by decide), h11.2.2.1 (by decide) (by decide) (by decide),
          h10.2.2.2.1 (by decide) (by decide) (by decide) (by decide), ?_⟩
  exact h99.2.2.2.2 _ (h99.1 (by decide))

/-- C3: a terminal game (`win`, `draw` or `aborted`) rejects every
mutating operation with the corresponding error, and each rejection
leaves the game (and for `move` the player counters) unchanged. -/
theorem terminal_game_rejects (g : Game) (pdb : ℕ → PlayerRec) (pkey : ℕ)
    (x y now : ℤ) (shuffle : List ℕ → List ℕ)
    (hterm : g.state = .aborted ∨ g.state = .draw ∨ g.state = .win) :
    ((∃ f, Game.add_player g pdb pkey shuffle now = .error (.joinError f)) ∧
      applyAdd g pdb pkey shuffle now = g) ∧
    ((∃ f, Game.remove_player g pdb pkey now = .error (.leaveError f)) ∧
      applyRemove g pdb pkey now = some g) ∧
    ((∃ f, Game.move g pdb pkey x y now = .error (.moveError f)) ∧
      applyMove g pdb pkey x y now = (g, pdb)) ∧
    (Game.abort g now = .error .abortError ∧ applyAbort g now = some g) := by
  have hw : g.state ≠ .waiting := by rcases hterm with h | h | h <;> simp [h]
  have hp : g.state ≠ .playing := by rcases hterm with h | h | h <;> simp [h]
  refine ⟨?_, ?_, ?_, ?_⟩
  · by_cases h1 : pkey ∈ g.players
    · by_cases h2 : g.rule_set.num_players ≤ (g.players.length : ℤ)
      · exact ⟨⟨.already_in_game, by simp only [Game.add_player, if_pos h1]⟩,
          by simp only [applyAdd, Game.add_player, if_pos h1]⟩
      · exact ⟨⟨.already_in_game, by simp only [Game.add_player, if_pos h1]⟩,
          by simp only [applyAdd, Game.add_player, if_pos h1]⟩
    · by_cases h2 : g.rule_set.num_players ≤ (g.players.length : ℤ)
      · exact ⟨⟨.game_full, by simp only [Game.add_player, if_neg h1, if_pos h2]⟩,
          by simp only [applyAdd, Game.add_player, if_neg h1, if_pos h2]⟩
      · refine ⟨⟨.not_accepting, ?_⟩, ?_⟩
        · simp only [Game.add_player, if_neg h1, if_neg h2, if_pos hw]
        · simp only [applyAdd, Game.add_player, if_neg h1, if_neg h2, if_pos hw]
  · by_cases h1 : pkey ∈ g.players
    · have hrm : Game.remove_player g pdb pkey now = .error (.leaveError .completed) := by
        unfold Game.remove_player
        rw [if_neg (by simpa using h1)]
        rcases hterm with h | h | h <;> rw [h]
      exact ⟨⟨.completed, hrm⟩, by simp only [applyRemove, hrm]⟩
    · have hrm : Game.remove_player g pdb pkey now = .error (.leaveError .not_in_game) := by
        unfold Game.remove_player
        rw [if_pos (by simpa using h1)]
      exact ⟨⟨.not_in_game, hrm⟩, by simp only [applyRemove, hrm]⟩
  · by_cases h1 : pkey ∈ g.players
    · have hmv : Game.move g pdb pkey x y now = .error (.moveError .not_playing) :=
        (move_guard_order g pdb pkey x y now).2.1 h1 hp
      exact ⟨⟨.not_playing, hmv⟩, by simp only [applyMove, hmv]⟩
    · have hmv : Game.move g pdb pkey x y now = .error (.moveError .not_in_game) :=
        (move_guard_order g pdb pkey x y now).1 h1
      exact ⟨⟨.not_in_game, hmv⟩, by simp only [applyMove, hmv]⟩
  · have hab : Game.abort g now = .error .abortError := by
      unfold Game.abort
      rcases hterm with h | h | h <;> rw [h]
    exact ⟨hab, by simp only [applyAbort, hab]⟩

/-- Witness for C3 on a concrete aborted game. -/
theorem terminal_game_rejects_witness :
    let g : Game := { tttGame with state := .aborted, turn := -1 }
    ((∃ f, Game.add_player g tttPdb 10 id 5 = .error (.joinError f)) ∧
      applyAdd g tttPdb 10 id 5 = g) ∧
    ((∃ f, Game.remove_player g tttPdb 10 5 = .error (.leaveError f)) ∧
      applyRemove g tttPdb 10 5 = some g) ∧
    ((∃ f, Game.move g tttPdb 10 0 0 5 = .error (.moveError f)) ∧
      applyMove g tttPdb 10 0 0 5 = (g, tttPdb)) ∧
    (Game.abort g 5 = .error .abortError ∧ applyAbort g 5 = some g) :=
  terminal_game_rejects _ tttPdb 10 0 0 5 id (Or.inl rfl)

/-- The float expression `age.seconds / 3600.0 + age.days * 24.0` of
main.py equals the exact age in hours. -/
theorem game_age_hours_eq (now last : ℤ) :
    game_age_hours now last = ((now - last : ℤ) : ℚ) / 3600 := by
  unfold game_age_hours
  have h : (((now - last) % 86400 : ℤ) : ℚ)
      = ((now - last : ℤ) : ℚ) - (((now - last) / 86400 : ℤ) : ℚ) * 86400 := by
    rw [Int.emod_def]
    push_cast
    ring
  rw [h]
  ring

/-- The sweep condition in whole seconds: more than 21600 s (6 h) for a
waiting game, more than 172800 s (48 h) for a playing game. -/
theorem abandoned_iff (now : ℤ) (g : Game) :
    abandoned now g ↔
      (g.state = GState.waiting ∧ 21600 < now - g.last_update) ∨
      (g.state = GState.playing ∧ 172800 < now - g.last_update) := by
  unfold abandoned
  rw [game_age_hours_eq]
  have h6 : ((6 : ℚ) < ((now - g.last_update : ℤ) : ℚ) / 3600)
      ↔ 21600 < now - g.last_update := by
    rw [lt_div_iff (by norm_num : (0 : ℚ) < 3600),
      show (6 : ℚ) * 3600 = ((21600 : ℤ) : ℚ) by norm_num, Int.cast_lt]
  have h48 : ((48 : ℚ) < ((now - g.last_update : ℤ) : ℚ) / 3600)
      ↔ 172800 < now - g.last_update := by
    rw [lt_div_iff (by norm_num : (0 : ℚ) < 3600),
      show (48 : ℚ) * 3600 = ((172800 : ℤ) : ℚ) by norm_num, Int.cast_lt]
  rw [h6, h48]

/-- C9: aborting a playing game — directly, through
`Game.remove_player`, or through the inactivity sweep — only sets
`state := aborted`, `turn := -1` (and the `last_update` timestamp);
board data, roster, name cache, current player and the rule set (with
its `num_games` counter) are untouched, and no player row is written. -/
theorem abort_playing_frame (g : Game) (pdb : ℕ → PlayerRec) (pkey : ℕ)
    (now : ℤ) (hplay : g.state = .playing) :
    (Game.abort g now
      = .ok (some { g with state := .aborted, turn := -1, last_update := now })) ∧
    (pkey ∈ g.players →
      Game.remove_player g pdb pkey now = Game.abort g now) ∧
    (abandoned now g → ∀ rest,
      sweep_games now (g :: rest)
        = { g with state := .aborted, turn := -1, last_update := now } :: rest) := by
  have hab : Game.abort g now
      = .ok (some { g with state := .aborted, turn := -1, last_update := now }) := by
    unfold Game.abort; rw [hplay]
  refine ⟨hab, ?_, ?_⟩
  · intro hmem
    unfold Game.remove_player
    rw [if_neg (not_not_intro hmem), hplay]
  · intro habd rest
    unfold sweep_games
    rw [if_pos habd, hab]
    rfl

/-- Witness for C9: a playing game 49 hours old, swept and aborted. -/
theorem abort_playing_frame_witness :
    (Game.abort tttGame 176400
      = .ok (some { tttGame with state := .aborted, turn := -1, last_update := 176400 })) ∧
    (Game.remove_player tttGame tttPdb 10 176400 = Game.abort tttGame 176400) ∧
    (sweep_games 176400 [tttGame]
      = [{ tttGame with state := .aborted, turn := -1, last_update := 176400 }]) := by
  have h := abort_playing_frame tttGame tttPdb 10 176400 rfl
  exact ⟨h.1, h.2.1 (by decide),
    h.2.2 ((abandoned_iff 176400 tttGame).mpr (Or.inr ⟨rfl, by decide⟩)) []⟩

/-- C5 (the code as written): the first store of a new game initialises
`data` to `n` strings of `m` zeros — the transpose of the `m` strings
of length `n` that `pack_board`/`unpack_board` and the spec use.  On the
4×2 rule set the stored board is 2 strings of 4 characters, not 4
strings of 2. -/
theorem init_data_transposed :
    initData wideRules = ["0000", "0000"] ∧
    (initData wideRules).length = wideRules.n.toNat ∧
    ¬ ((initData wideRules).length = wideRules.m.toNat ∧
       ∀ s ∈ initData wideRules, s.length = wideRules.n.toNat) := by
  refine ⟨by decide, by decide, ?_⟩
  intro h
  have h1 := h.1
  revert h1
  decide

/-- C6 counterexample: a waiting game 7 hours stale is deleted by the
sweep, not marked aborted — after the sweep no game with
`state = aborted ∧ turn = -1` exists (the store is empty). -/
theorem sweep_deletes_stale_waiting :
    sweep_games 25200 [staleWaitingGame] = [] ∧
    ¬ ∃ g2 ∈ sweep_games 25200 [staleWaitingGame],
        g2.state = .aborted ∧ g2.turn = -1 := by
  have hab : abandoned 25200 staleWaitingGame :=
    (abandoned_iff 25200 staleWaitingGame).mpr (Or.inl ⟨rfl, by decide⟩)
  have hs : sweep_games 25200 [staleWaitingGame] = [] := by
    unfold sweep_games
    rw [if_pos hab]
    rfl
  refine ⟨hs, ?_⟩
  intro ⟨g2, hmem, _⟩
  rw [hs] at hmem
  exact absurd hmem (List.not_mem_nil g2)

/-- C6 amended: during a list query the first listed game past its
threshold (6 h waiting, 48 h playing) is swept — a waiting game is
deleted, a playing game survives as `state = aborted`, `turn = -1` —
and every other listed game is untouched this request. -/
theorem sweep_first_stale (now : ℤ) (pre : List Game) (g : Game) (rest : List Game)
    (hpre : ∀ h ∈ pre, ¬ abandoned now h)
    (hg : abandoned now g) :
    (g.state = .waiting → sweep_games now (pre ++ g :: rest) = pre ++ rest) ∧
    (g.state = .playing → sweep_games now (pre ++ g :: rest)
      = pre ++ { g with state := .aborted, turn := -1, last_update := now } :: rest) := by
  induction pre with
  | nil =>
    constructor
    · intro hw
      have habort : g.abort now = Except.ok none := by
        unfold Game.abort; rw [hw]
      show sweep_games now (g :: rest) = rest
      unfold sweep_games
      rw [if_pos hg, habort]
      rfl
    · intro hp
      have habort : g.abort now
          = Except.ok (some { g with state := .aborted, turn := -1, last_update := now }) := by
        unfold Game.abort; rw [hp]
      show sweep_games now (g :: rest)
          = { g with state := .aborted, turn := -1, last_update := now } :: rest
      unfold sweep_games
      rw [if_pos hg, habort]
      rfl
  | cons a pre ih =>
    have ha : ¬ abandoned now a := hpre a (List.mem_cons_self a pre)
    have ih' := ih (fun h hm => hpre h (List.mem_cons_of_mem a hm))
    constructor
    · intro hw
      show sweep_games now (a :: (pre ++ g :: rest)) = a :: (pre ++ rest)
      unfold sweep_games
      rw [if_neg ha, ih'.1 hw]
    · intro hp
      show sweep_games now (a :: (pre ++ g :: rest))
          = a :: (pre ++ { g with state := .aborted, turn := -1, last_update := now } :: rest)
      unfold sweep_games
      rw [if_neg ha, ih'.2 hp]

/-- Witness for C6 amended: a 49-hour-old playing game heads the list
and is aborted in place. -/
theorem sweep_first_stale_witness :
    sweep_games 176400 [tttGame]
      = [{ tttGame with state := .aborted, turn := -1, last_update := 176400 }] := by
  have h := sweep_first_stale 176400 [] tttGame []
    (fun h hm => absurd hm (List.not_mem_nil h))
    ((abandoned_iff 176400 tttGame).mpr (Or.inr ⟨rfl, by decide⟩))
  simpa using h.2 rfl

/-- C8 (the code as written): both failure paths of `Player.register`
raise the undefined global `RegisterError`, so Python raises
`NameError`; the facade wrapper therefore reports type `NameError`, not
`RegisterError`, and no player row is created (the registry output only
changes on success). -/
theorem register_failure_is_name_error :
    Player.register [] "Bob" "abc" = .error (.nameError "RegisterError") ∧
    Player.register [] "a!" "longpassword" = .error (.nameError "RegisterError") ∧
    serviceWrap (Player.register [] "Bob" "abc")
      = { status := "error", rtype := "NameError" } ∧
    serviceWrap (Player.register [] "Bob" "abc")
      ≠ { status := "error", rtype := "RegisterError" } := by
  refine ⟨rfl, rfl, by decide, by decide⟩

end Monkey
